import Mathlib

/-!
Shallow embedding of the CSP validator core (`src/CSPValidator.py`):
character classes, a backtracking regex matcher modelling the
case-insensitive, non-overlapping `view.find_all` search of the host
editor, the eight validation rules of `CSPValidator.rules`, and
`CSPValidator.validate_contents`.
-/

/-- Case folding on character codes: ASCII uppercase letters map to the
code of their lowercase form, every other character is unchanged.
Models the `sublime.IGNORECASE` comparison of the source. -/
def lcN (c : Char) : Nat :=
  if 65 ≤ c.toNat ∧ c.toNat ≤ 90 then c.toNat + 32 else c.toNat

/-- The regex whitespace class: space, tab, newline, vertical tab,
form feed, carriage return. -/
def isSpaceChar (c : Char) : Bool :=
  c.toNat == 32 || c.toNat == 9 || c.toNat == 10 ||
  c.toNat == 11 || c.toNat == 12 || c.toNat == 13

/-- One member of a character class: a literal character (compared
case-insensitively) or the whitespace class. -/
inductive ClassAtom where
  | ch (c : Char)
  | space
deriving DecidableEq

/-- A (possibly negated) character class. -/
structure CClass where
  neg : Bool
  atoms : List ClassAtom
deriving DecidableEq

def ClassAtom.hit : ClassAtom → Char → Bool
  | .ch d, c => lcN c == lcN d
  | .space, c => isSpaceChar c

def CClass.hit (k : CClass) (c : Char) : Bool :=
  if k.neg then !(k.atoms.any (fun a => a.hit c))
  else k.atoms.any (fun a => a.hit c)

/-- Regular expressions as used by the eight rule patterns.  Every
repetition operator in the patterns applies to a single character
class, with greedy (`G`) and lazy (`L`) variants. -/
inductive RE where
  | eps
  | cls (k : CClass)
  | cat (a b : RE)
  | alt (a b : RE)
  | optG (a : RE)
  | starG (k : CClass)
  | starL (k : CClass)
  | plusG (k : CClass)
  | plusL (k : CClass)

/-- Greedy star over a class, in continuation-passing style: prefer to
consume another matching character, fall back to stopping here. -/
def starGrun (k : CClass) : List Char → (List Char → Option (List Char)) →
    Option (List Char)
  | [], f => f []
  | c :: s, f =>
    if k.hit c then (starGrun k s f).orElse (fun _ => f (c :: s))
    else f (c :: s)

/-- Lazy star over a class: prefer to stop here, fall back to consuming
another matching character. -/
def starLrun (k : CClass) : List Char → (List Char → Option (List Char)) →
    Option (List Char)
  | [], f => f []
  | c :: s, f =>
    (f (c :: s)).orElse (fun _ => if k.hit c then starLrun k s f else none)

/-- Backtracking matcher: try to match `r` against a front segment of
the suffix `s`, passing the remainder to the continuation `f`.
Alternatives are explored in standard backtracking priority order
(left alternative first, greedy = longest first, lazy = shortest
first), as the host's regex engine does. -/
def mrun : RE → List Char → (List Char → Option (List Char)) →
    Option (List Char)
  | .eps, s, f => f s
  | .cls _, [], _ => none
  | .cls k, c :: s, f => if k.hit c then f s else none
  | .cat a b, s, f => mrun a s (fun s2 => mrun b s2 f)
  | .alt a b, s, f => (mrun a s f).orElse (fun _ => mrun b s f)
  | .optG a, s, f => (mrun a s f).orElse (fun _ => f s)
  | .starG k, s, f => starGrun k s f
  | .starL k, s, f => starLrun k s f
  | .plusG _, [], _ => none
  | .plusG k, c :: s, f => if k.hit c then starGrun k s f else none
  | .plusL _, [], _ => none
  | .plusL k, c :: s, f => if k.hit c then starLrun k s f else none

/-- Length of the priority-first match of `r` at the start of `s`, if any. -/
def matchLen (r : RE) (s : List Char) : Option Nat :=
  (mrun r s some).map (fun rest => s.length - rest.length)

/-- Left-to-right scan collecting every non-overlapping match of `r` as
an offset span `(start, end)`; after a match the scan resumes at the
match's end (one position further for an empty match), as
`view.find_all` does.  `fuel` bounds the recursion; `findAll` supplies
enough fuel for the whole text. -/
def findAllFuel (r : RE) : Nat → List Char → Nat → List (Nat × Nat)
  | 0, _, _ => []
  | fuel + 1, s, i =>
    match matchLen r s with
    | some L =>
      if L = 0 then
        (i, i) :: (match s with
          | [] => []
          | _ :: t => findAllFuel r fuel t (i + 1))
      else
        (i, i + L) :: findAllFuel r fuel (s.drop L) (i + L)
    | none =>
      match s with
      | [] => []
      | _ :: t => findAllFuel r fuel t (i + 1)

/-- All non-overlapping matches of `r` in `s`, leftmost first. -/
def findAll (r : RE) (s : List Char) : List (Nat × Nat) :=
  findAllFuel r (s.length + 1) s 0

/-- A literal character sequence, matched case-insensitively. -/
def litL : List Char → RE
  | [] => .eps
  | c :: cs => .cat (.cls ⟨false, [.ch c]⟩) (litL cs)

def lit (s : String) : RE := litL s.toList

def reSeq (rs : List RE) : RE := rs.foldr RE.cat RE.eps

/-- A positive character class written from its member characters. -/
def chCls (s : String) : CClass := ⟨false, s.toList.map ClassAtom.ch⟩

/-- A negated character class written from its excluded characters. -/
def negCls (s : String) : CClass := ⟨true, s.toList.map ClassAtom.ch⟩

/-- The whitespace class `\s`. -/
def spCls : CClass := ⟨false, [.space]⟩

/-- `.` without DOTALL: any character except newline. -/
def dotC : CClass := negCls "\n"

/-- `.` under the `(?s)` flag: any character at all. -/
def dotS : CClass := ⟨true, []⟩

/-- The class `[^\s<]`: any character that is neither whitespace nor `<`. -/
def nsltC : CClass := ⟨true, [.space, .ch '<']⟩

/-- A validation rule: pattern, message and optional gating setting name
(`CSPRule` in the source). -/
structure CSPRule where
  rule : RE
  message : String
  setting : Option String := none

/-- An error: matched region `(start, end)` and the rule's message
(`CSPError` in the source). -/
structure CSPError where
  region : Nat × Nat
  message : String
deriving DecidableEq

/-- Rule 1, pattern `<(img|script).*?\ssrc\s?=\s?["\x27]+http[^"\x27]*["\x27]?`:
src attributes with an http(s) protocol. -/
def rule1 : CSPRule :=
  { rule := reSeq [lit "<", .alt (lit "img") (lit "script"), .starL dotC,
      .cls spCls, lit "src", .optG (.cls spCls), lit "=", .optG (.cls spCls),
      .plusG (chCls "\"'"), lit "http", .starG (negCls "\"'"),
      .optG (.cls (chCls "\"'"))],
    message := "External resources are not allowed",
    setting := some "csp_chromeapps" }

/-- Rule 2, pattern `<link.+?href\s?=\s?["\x27]+http[^"\x27]*["\x27]?`:
link href attributes with an http(s) protocol. -/
def rule2 : CSPRule :=
  { rule := reSeq [lit "<link", .plusL dotC, lit "href", .optG (.cls spCls),
      lit "=", .optG (.cls spCls), .plusG (chCls "\"'"), lit "http",
      .starG (negCls "\"'"), .optG (.cls (chCls "\"'"))],
    message := "External resources are not allowed",
    setting := some "csp_chromeapps" }

/-- Rule 3, pattern `(?ms)<script[^>]*>[^<]+?[^\s<]+?.*?</script>`:
script elements with non-whitespace contents, matched across lines. -/
def rule3 : CSPRule :=
  { rule := reSeq [lit "<script", .starG (negCls ">"), lit ">",
      .plusL (negCls "<"), .plusL nsltC, .starL dotS, lit "</script>"],
    message := "Inline scripts are not allowed" }

/-- Rule 4, pattern `eval|new Function`. -/
def rule4 : CSPRule :=
  { rule := .alt (lit "eval") (lit "new Function"),
    message := "Code creation from strings, e.g. eval / new Function not allowed" }

/-- Rule 5, pattern `setTimeout\s?\("[^"]*"`: setTimeout with a string
literal argument. -/
def rule5 : CSPRule :=
  { rule := reSeq [lit "setTimeout", .optG (.cls spCls), lit "(\"",
      .starG (negCls "\""), lit "\""],
    message := "Code creation from strings, e.g. setTimeout(\"string\") is not allowed" }

/-- Rule 6, pattern `<.*?\son[^>]*?>`: tags with an inline `on...`
event handler attribute. -/
def rule6 : CSPRule :=
  { rule := reSeq [lit "<", .starL dotC, .cls spCls, lit "on",
      .starL (negCls ">"), lit ">"],
    message := "Event handlers should be added from an external src file" }

/-- Rule 7, pattern `url\("?(?:https?:)?//[^\)]*\)`: external resources
in CSS. -/
def rule7 : CSPRule :=
  { rule := reSeq [lit "url(", .optG (.cls (chCls "\"")),
      .optG (reSeq [lit "http", .optG (.cls (chCls "s")), lit ":"]),
      lit "//", .starG (negCls ")"), lit ")"],
    message := "External resources are not allowed",
    setting := some "csp_chromeapps" }

/-- Rule 8, pattern `<.*?href.*?javascript:.*?>`: hrefs with a
javascript: url. -/
def rule8 : CSPRule :=
  { rule := reSeq [lit "<", .starL dotC, lit "href", .starL dotC,
      lit "javascript:", .starL dotC, lit ">"],
    message := "Inline JavaScript calls are not allowed",
    setting := some "csp_chromeapps" }

/-- The ordered rule list `CSPValidator.rules`. -/
def CSPValidator.rules : List CSPRule :=
  [rule1, rule2, rule3, rule4, rule5, rule6, rule7, rule8]

/-- `view.settings().get(...)` applied to an optional setting name. -/
def settingsGet (settings : String → Option Nat) : Option String → Option Nat
  | none => none
  | some name => settings name

/-- `CSPValidator.validate_contents`: for each rule in order, when the
rule has no gating setting or the setting's value equals 1, append one
error per match of the rule's pattern. -/
def CSPValidator.validate_contents (settings : String → Option Nat)
    (text : List Char) : List CSPError :=
  CSPValidator.rules.foldl
    (fun errors rule =>
      if (rule.setting == none) || (settingsGet settings rule.setting == some 1) then
        errors ++ (findAll rule.rule text).map
          (fun m => { region := m, message := rule.message })
      else errors)
    []

/-- Flag state with the external-resources setting enabled. -/
def flagsOn : String → Option Nat :=
  fun n => if n = "csp_chromeapps" then some 1 else none

/-- Flag state with no setting present. -/
def flagsOff : String → Option Nat := fun _ => none

/-- The gating test of the rule loop: the rule has no setting, or the
setting's value equals 1. -/
def ruleActive (settings : String → Option Nat) (r : CSPRule) : Bool :=
  (r.setting == none) || (settingsGet settings r.setting == some 1)

/-- The errors one rule contributes: one per match, in match order. -/
def ruleErrors (r : CSPRule) (t : List Char) : List CSPError :=
  (findAll r.rule t).map (fun m => { region := m, message := r.message })

/-- Case-insensitive comparison of a literal character sequence with the
front of a text. -/
def litMatch : List Char → List Char → Bool
  | [], _ => true
  | _ :: _, [] => false
  | c :: cs, x :: xs => (lcN x == lcN c) && litMatch cs xs

/-- Relates two optional matcher results whose remainders agree after
case folding. -/
def optRel : Option (List Char) → Option (List Char) → Prop
  | none, none => True
  | some u, some v => u.map lcN = v.map lcN
  | _, _ => False

/-- No match of `r` that begins strictly before position `p` of `t`
reaches past `p`. -/
def isolatedAt (r : RE) (t : List Char) (p : Nat) : Prop :=
  ∀ a, a < p → a + (matchLen r (t.drop a)).getD 0 ≤ p

instance (r : RE) (t : List Char) (p : Nat) : Decidable (isolatedAt r t p) := by
  unfold isolatedAt
  infer_instance

/-! ### Basic facts about the matcher and the scan -/

theorem matchLen_le {r : RE} {s : List Char} {L : Nat}
    (h : matchLen r s = some L) : L ≤ s.length := by
  unfold matchLen at h
  rcases hm : mrun r s some with _ | rest <;> rw [hm] at h <;> simp at h
  omega

theorem findAllFuel_bounds {r : RE} : ∀ (fuel : Nat) (s : List Char) (i : Nat)
    (e : Nat × Nat), e ∈ findAllFuel r fuel s i →
    i ≤ e.1 ∧ e.1 ≤ e.2 ∧ e.2 ≤ i + s.length := by
  intro fuel
  induction fuel with
  | zero => intro s i e he; simp [findAllFuel] at he
  | succ fuel ih =>
    intro s i e he
    rcases hm : matchLen r s with _ | L
    · cases s with
      | nil => simp [findAllFuel, hm] at he
      | cons c t =>
        simp only [findAllFuel, hm] at he
        have h2 := ih t (i + 1) e he
        simp only [List.length_cons]
        omega
    · have hLs : L ≤ s.length := matchLen_le hm
      by_cases hL : L = 0
      · subst hL
        cases s with
        | nil =>
          simp [findAllFuel, hm] at he
          simp [he]
        | cons c t =>
          simp only [findAllFuel, hm, if_pos rfl] at he
          rcases List.mem_cons.mp he with he | he
          · simp [he]
          · have h2 := ih t (i + 1) e he
            simp only [List.length_cons]
            omega
      · simp only [findAllFuel, hm, if_neg hL] at he
        rcases List.mem_cons.mp he with he | he
        · simp [he]; omega
        · have h2 := ih (s.drop L) (i + L) e he
          simp only [List.length_drop] at h2
          omega

theorem findAll_bounds {r : RE} {s : List Char} {e : Nat × Nat}
    (he : e ∈ findAll r s) : e.1 ≤ e.2 ∧ e.2 ≤ s.length := by
  have h := findAllFuel_bounds (s.length + 1) s 0 e he
  omega

theorem findAllFuel_sorted {r : RE} : ∀ (fuel : Nat) (s : List Char) (i : Nat),
    (findAllFuel r fuel s i).Pairwise (fun a b => a.1 < b.1 ∧ a.2 ≤ b.1) := by
  intro fuel
  induction fuel with
  | zero => intro s i; simp [findAllFuel]
  | succ fuel ih =>
    intro s i
    rcases hm : matchLen r s with _ | L
    · cases s with
      | nil => simp [findAllFuel, hm]
      | cons c t => simpa only [findAllFuel, hm] using ih t (i + 1)
    · by_cases hL : L = 0
      · subst hL
        cases s with
        | nil => simp [findAllFuel, hm]
        | cons c t =>
          simp only [findAllFuel, hm, if_pos rfl]
          refine List.pairwise_cons.mpr ⟨fun b hb => ?_, ih t (i + 1)⟩
          have hbd := findAllFuel_bounds fuel t (i + 1) b hb
          simp only
          omega
      · simp only [findAllFuel, hm, if_neg hL]
        refine List.pairwise_cons.mpr ⟨fun b hb => ?_, ih (s.drop L) (i + L)⟩
        have hbd := findAllFuel_bounds fuel (s.drop L) (i + L) b hb
        simp only
        omega

theorem findAll_sorted (r : RE) (s : List Char) :
    (findAll r s).Pairwise (fun a b => a.1 < b.1 ∧ a.2 ≤ b.1) :=
  findAllFuel_sorted (s.length + 1) s 0

/-! ### The rule loop as filter-then-collect -/

theorem foldl_rules_eq {α β : Type} (p : α → Bool) (g : α → List β) :
    ∀ (rs : List α) (acc : List β),
      rs.foldl (fun errors r => if p r then errors ++ g r else errors) acc
        = acc ++ (rs.filter p).flatMap g := by
  intro rs
  induction rs with
  | nil => intro acc; simp
  | cons r rs ih =>
    intro acc
    by_cases hp : p r
    · simp [hp, ih, List.append_assoc]
    · simp [hp, ih]

theorem validate_eq_flatMap (settings : String → Option Nat) (t : List Char) :
    CSPValidator.validate_contents settings t
      = (CSPValidator.rules.filter (ruleActive settings)).flatMap
          (fun r => ruleErrors r t) := by
  have h := foldl_rules_eq (ruleActive settings) (fun r => ruleErrors r t)
    CSPValidator.rules []
  simpa [CSPValidator.validate_contents, ruleActive, ruleErrors] using h

theorem filter_rules_off {settings : String → Option Nat}
    (h : settings "csp_chromeapps" ≠ some 1) :
    CSPValidator.rules.filter (ruleActive settings)
      = [rule3, rule4, rule5, rule6] := by
  have h1 : (settings "csp_chromeapps" == some 1) = false := by
    simpa using h
  simp [CSPValidator.rules, ruleActive, settingsGet, rule1, rule2, rule3,
    rule4, rule5, rule6, rule7, rule8, h1]

theorem filter_rules_on {settings : String → Option Nat}
    (h : settings "csp_chromeapps" = some 1) :
    CSPValidator.rules.filter (ruleActive settings) = CSPValidator.rules := by
  simp [CSPValidator.rules, ruleActive, settingsGet, rule1, rule2, rule3,
    rule4, rule5, rule6, rule7, rule8, h]

/-! ### Completeness of the scan at isolated match positions -/

theorem findAllFuel_pos {r : RE} {s : List Char} {i fuel L : Nat}
    (hmi : matchLen r s = some L) (hL : L ≠ 0) :
    findAllFuel r (fuel + 1) s i
      = (i, i + L) :: findAllFuel r fuel (s.drop L) (i + L) := by
  simp only [findAllFuel]
  rw [hmi]
  exact if_neg hL

theorem findAllFuel_zero_cons {r : RE} {c : Char} {tail : List Char}
    {i fuel : Nat} (hmi : matchLen r (c :: tail) = some 0) :
    findAllFuel r (fuel + 1) (c :: tail) i
      = (i, i) :: findAllFuel r fuel tail (i + 1) := by
  simp only [findAllFuel]
  rw [hmi]
  exact if_pos rfl

theorem findAllFuel_none_cons {r : RE} {c : Char} {tail : List Char}
    {i fuel : Nat} (hmi : matchLen r (c :: tail) = none) :
    findAllFuel r (fuel + 1) (c :: tail) i = findAllFuel r fuel tail (i + 1) := by
  simp only [findAllFuel]
  rw [hmi]

theorem findAllFuel_complete {r : RE} {t : List Char} {p L : Nat}
    (hm : matchLen r (t.drop p) = some L) (hL : 0 < L)
    (hiso : isolatedAt r t p) :
    ∀ (fuel i : Nat), i ≤ p → (t.drop i).length < fuel →
      (p, p + L) ∈ findAllFuel r fuel (t.drop i) i := by
  have hpt : p < t.length := by
    have h1 := matchLen_le hm
    simp only [List.length_drop] at h1
    omega
  intro fuel
  induction fuel with
  | zero => intro i _ hlen; omega
  | succ fuel ih =>
    intro i hip hlen
    rcases eq_or_lt_of_le hip with rfl | hlt
    · rw [findAllFuel_pos hm (by omega)]
      exact List.mem_cons_self _ _
    · rcases hd : t.drop i with _ | ⟨c, s⟩
      · have := congrArg List.length hd
        simp only [List.length_drop, List.length_nil] at this
        omega
      have hdrop1 : s = t.drop (i + 1) := by
        have h2 : (t.drop i).drop 1 = t.drop (i + 1) := by
          rw [List.drop_drop]
        rw [hd] at h2
        simpa using h2
      have hlent : t.length - i = s.length + 1 := by
        have h3 := congrArg List.length hd
        simpa using h3
      have hlen2 : (t.drop (i + 1)).length < fuel := by
        have h4 := congrArg List.length hd
        simp only [List.length_drop, List.length_cons] at h4 hlen ⊢
        omega
      rcases hmi : matchLen r (c :: s) with _ | L2
      · rw [findAllFuel_none_cons hmi, hdrop1]
        exact ih (i + 1) (by omega) hlen2
      · by_cases hL0 : L2 = 0
        · subst hL0
          rw [findAllFuel_zero_cons hmi, hdrop1]
          exact List.mem_cons_of_mem _ (ih (i + 1) (by omega) hlen2)
        · have hisol := hiso i hlt
          rw [hd, hmi, Option.getD_some] at hisol
          have hL2len := matchLen_le hmi
          simp only [List.length_cons] at hL2len
          have hdropL : (c :: s).drop L2 = t.drop (i + L2) := by
            rw [← hd, List.drop_drop]
          have hlen3 : (t.drop (i + L2)).length < fuel := by
            simp only [List.length_drop] at hlen ⊢
            omega
          rw [findAllFuel_pos hmi hL0, hdropL]
          exact List.mem_cons_of_mem _ (ih (i + L2) hisol hlen3)

theorem findAll_complete {r : RE} {t : List Char} {p L : Nat}
    (hm : matchLen r (t.drop p) = some L) (hL : 0 < L)
    (hiso : isolatedAt r t p) : (p, p + L) ∈ findAll r t := by
  have h0 : (t.drop 0).length < t.length + 1 := by simp
  have := findAllFuel_complete hm hL hiso (t.length + 1) 0 (Nat.zero_le p) h0
  simpa using this

/-! ### Literal sequences -/

theorem mrun_litL : ∀ (cs s : List Char) (f : List Char → Option (List Char)),
    mrun (litL cs) s f = if litMatch cs s then f (s.drop cs.length) else none := by
  intro cs
  induction cs with
  | nil => intro s f; simp [litL, litMatch, mrun]
  | cons c cs ih =>
    intro s f
    cases s with
    | nil => simp [litL, litMatch, mrun]
    | cons x xs =>
      simp only [litL, mrun, litMatch]
      by_cases hx : lcN x == lcN c
      · have hx2 : CClass.hit ⟨false, [ClassAtom.ch c]⟩ x = true := by
          simp [CClass.hit, ClassAtom.hit, hx]
        rw [if_pos hx2, ih]
        simp [hx]
      · have hx2 : CClass.hit ⟨false, [ClassAtom.ch c]⟩ x = false := by
          simp only [CClass.hit, ClassAtom.hit, Bool.if_false_left,
            List.any_cons, List.any_nil, Bool.or_false]
          simpa using hx
        rw [if_neg (by simp [hx2])]
        have : (lcN x == lcN c) = false := by simpa using hx
        simp [this]

theorem litMatch_length {cs s : List Char} (h : litMatch cs s = true) :
    cs.length ≤ s.length := by
  induction cs generalizing s with
  | nil => simp
  | cons c cs ih =>
    cases s with
    | nil => simp [litMatch] at h
    | cons x xs =>
      simp only [litMatch, Bool.and_eq_true] at h
      have := ih h.2
      simp only [List.length_cons]
      omega

theorem litMatch_getElem {cs s : List Char} (h : litMatch cs s = true) :
    ∀ j, j < cs.length → (s[j]?).map lcN = (cs[j]?).map lcN := by
  induction cs generalizing s with
  | nil => intro j hj; simp at hj
  | cons c cs ih =>
    cases s with
    | nil => simp [litMatch] at h
    | cons x xs =>
      simp only [litMatch, Bool.and_eq_true, beq_iff_eq] at h
      intro j hj
      cases j with
      | zero => simp [h.1]
      | succ j =>
        simp only [List.getElem?_cons_succ]
        exact ih h.2 j (by simpa using hj)

theorem litMatch_abs {cs t : List Char} {a : Nat}
    (h : litMatch cs (t.drop a) = true) (j : Nat) (hj : j < cs.length) :
    (t[a + j]?).map lcN = (cs[j]?).map lcN := by
  have := litMatch_getElem h j hj
  rwa [List.getElem?_drop] at this

/-! ### The eval / new Function pattern -/

theorem mrun_alt (a b : RE) (s : List Char)
    (f : List Char → Option (List Char)) :
    mrun (.alt a b) s f = (mrun a s f).orElse (fun _ => mrun b s f) := rfl

theorem matchLen_rule4 (s : List Char) :
    matchLen rule4.rule s =
      if litMatch "eval".toList s then some 4
      else if litMatch "new Function".toList s then some 12 else none := by
  have h4 : ("eval".toList).length = 4 := by decide
  have h12 : ("new Function".toList).length = 12 := by decide
  unfold matchLen rule4
  simp only [lit]
  rw [mrun_alt, mrun_litL, mrun_litL]
  by_cases h1 : litMatch "eval".toList s
  · have hle : 4 ≤ s.length := by
      have := litMatch_length h1
      rwa [h4] at this
    rw [if_pos h1, if_pos h1]
    simp only [h4, Option.orElse, Option.map, List.length_drop]
    congr 1
    omega
  · rw [if_neg h1, if_neg h1]
    by_cases h2 : litMatch "new Function".toList s
    · have hle : 12 ≤ s.length := by
        have := litMatch_length h2
        rwa [h12] at this
      rw [if_pos h2, if_pos h2]
      simp only [h12, Option.orElse, Option.map, List.length_drop]
      congr 1
      omega
    · rw [if_neg h2, if_neg h2]
      simp [Option.orElse]

theorem litMatch_append_left : ∀ (cs1 cs2 s : List Char),
    litMatch (cs1 ++ cs2) s = true → litMatch cs1 s = true := by
  intro cs1
  induction cs1 with
  | nil => intro cs2 s _; rfl
  | cons c cs ih =>
    intro cs2 s h
    cases s with
    | nil => simp [litMatch] at h
    | cons x xs =>
      simp only [List.cons_append, litMatch, Bool.and_eq_true] at h ⊢
      exact ⟨h.1, ih cs2 xs h.2⟩

theorem rule4_isolated_eval {t : List Char} {p : Nat}
    (hp : litMatch "eval".toList (t.drop p) = true) :
    isolatedAt rule4.rule t p := by
  intro a ha
  rw [matchLen_rule4]
  have e0 := litMatch_abs hp 0 (by decide)
  have e1 := litMatch_abs hp 1 (by decide)
  by_cases h1 : litMatch "eval".toList (t.drop a)
  · rw [if_pos h1, Option.getD_some]
    by_contra hcon
    push_neg at hcon
    have hj : p - a = 1 ∨ p - a = 2 ∨ p - a = 3 := by omega
    rcases hj with hj | hj | hj
    · have f1 := litMatch_abs h1 1 (by decide)
      rw [show a + 1 = p + 0 from by omega] at f1
      rw [e0] at f1
      exact absurd f1 (by decide)
    · have f2 := litMatch_abs h1 2 (by decide)
      rw [show a + 2 = p + 0 from by omega] at f2
      rw [e0] at f2
      exact absurd f2 (by decide)
    · have f3 := litMatch_abs h1 3 (by decide)
      rw [show a + 3 = p + 0 from by omega] at f3
      rw [e0] at f3
      exact absurd f3 (by decide)
  · rw [if_neg h1]
    by_cases h2 : litMatch "new Function".toList (t.drop a)
    · rw [if_pos h2, Option.getD_some]
      by_contra hcon
      push_neg at hcon
      have hj : p - a = 1 ∨ p - a = 2 ∨ p - a = 3 ∨ p - a = 4 ∨ p - a = 5 ∨
          p - a = 6 ∨ p - a = 7 ∨ p - a = 8 ∨ p - a = 9 ∨ p - a = 10 ∨
          p - a = 11 := by omega
      rcases hj with hj | hj | hj | hj | hj | hj | hj | hj | hj | hj | hj
      · have f2 := litMatch_abs h2 2 (by decide)
        rw [show a + 2 = p + 1 from by omega] at f2
        rw [e1] at f2
        exact absurd f2 (by decide)
      · have f2 := litMatch_abs h2 2 (by decide)
        rw [show a + 2 = p + 0 from by omega] at f2
        rw [e0] at f2
        exact absurd f2 (by decide)
      · have f3 := litMatch_abs h2 3 (by decide)
        rw [show a + 3 = p + 0 from by omega] at f3
        rw [e0] at f3
        exact absurd f3 (by decide)
      · have f4 := litMatch_abs h2 4 (by decide)
        rw [show a + 4 = p + 0 from by omega] at f4
        rw [e0] at f4
        exact absurd f4 (by decide)
      · have f5 := litMatch_abs h2 5 (by decide)
        rw [show a + 5 = p + 0 from by omega] at f5
        rw [e0] at f5
        exact absurd f5 (by decide)
      · have f6 := litMatch_abs h2 6 (by decide)
        rw [show a + 6 = p + 0 from by omega] at f6
        rw [e0] at f6
        exact absurd f6 (by decide)
      · have f7 := litMatch_abs h2 7 (by decide)
        rw [show a + 7 = p + 0 from by omega] at f7
        rw [e0] at f7
        exact absurd f7 (by decide)
      · have f8 := litMatch_abs h2 8 (by decide)
        rw [show a + 8 = p + 0 from by omega] at f8
        rw [e0] at f8
        exact absurd f8 (by decide)
      · have f9 := litMatch_abs h2 9 (by decide)
        rw [show a + 9 = p + 0 from by omega] at f9
        rw [e0] at f9
        exact absurd f9 (by decide)
      · have f10 := litMatch_abs h2 10 (by decide)
        rw [show a + 10 = p + 0 from by omega] at f10
        rw [e0] at f10
        exact absurd f10 (by decide)
      · have f11 := litMatch_abs h2 11 (by decide)
        rw [show a + 11 = p + 0 from by omega] at f11
        rw [e0] at f11
        exact absurd f11 (by decide)
    · rw [if_neg h2]
      simp only [Option.getD_none]
      omega

theorem mem_validate_of_rule {settings : String → Option Nat} {t : List Char}
    {r : CSPRule} {e : CSPError} (hr : r ∈ CSPValidator.rules)
    (ha : ruleActive settings r = true) (he : e ∈ ruleErrors r t) :
    e ∈ CSPValidator.validate_contents settings t := by
  rw [validate_eq_flatMap]
  exact List.mem_flatMap.mpr ⟨r, List.mem_filter.mpr ⟨hr, ha⟩, he⟩

/-! ### Case insensitivity -/

theorem optRel_orElse {a a2 : Option (List Char)}
    {f f2 : Unit → Option (List Char)} (h : optRel a a2)
    (hf : optRel (f ()) (f2 ())) : optRel (a.orElse f) (a2.orElse f2) := by
  cases a <;> cases a2
  · exact hf
  · exact h.elim
  · exact h.elim
  · exact h

theorem isSpaceChar_lcN {c c2 : Char} (h : lcN c = lcN c2) :
    isSpaceChar c = isSpaceChar c2 := by
  unfold lcN at h
  by_cases h1 : 65 ≤ c.toNat ∧ c.toNat ≤ 90 <;>
    by_cases h2 : 65 ≤ c2.toNat ∧ c2.toNat ≤ 90
  · rw [if_pos h1, if_pos h2] at h
    have he : c.toNat = c2.toNat := by omega
    simp [isSpaceChar, he]
  · rw [if_pos h1, if_neg h2] at h
    have e1 : isSpaceChar c = false := by
      simp only [isSpaceChar, Bool.or_eq_false_iff, beq_eq_false_iff_ne, ne_eq]
      omega
    have e2 : isSpaceChar c2 = false := by
      simp only [isSpaceChar, Bool.or_eq_false_iff, beq_eq_false_iff_ne, ne_eq]
      omega
    rw [e1, e2]
  · rw [if_neg h1, if_pos h2] at h
    have e1 : isSpaceChar c = false := by
      simp only [isSpaceChar, Bool.or_eq_false_iff, beq_eq_false_iff_ne, ne_eq]
      omega
    have e2 : isSpaceChar c2 = false := by
      simp only [isSpaceChar, Bool.or_eq_false_iff, beq_eq_false_iff_ne, ne_eq]
      omega
    rw [e1, e2]
  · rw [if_neg h1, if_neg h2] at h
    simp [isSpaceChar, h]

theorem ClassAtom_hit_lcN (a : ClassAtom) {c c2 : Char} (h : lcN c = lcN c2) :
    a.hit c = a.hit c2 := by
  cases a with
  | ch d => simp [ClassAtom.hit, h]
  | space => exact isSpaceChar_lcN h

theorem CClass_hit_lcN (k : CClass) {c c2 : Char} (h : lcN c = lcN c2) :
    k.hit c = k.hit c2 := by
  unfold CClass.hit
  have hfun : (fun a : ClassAtom => a.hit c) = fun a => a.hit c2 :=
    funext fun a => ClassAtom_hit_lcN a h
  rw [hfun]

theorem starGrun_lcN (k : CClass) :
    ∀ (s s2 : List Char) (f f2 : List Char → Option (List Char)),
      s.map lcN = s2.map lcN →
      (∀ u u2, u.map lcN = u2.map lcN → optRel (f u) (f2 u2)) →
      optRel (starGrun k s f) (starGrun k s2 f2) := by
  intro s
  induction s with
  | nil =>
    intro s2 f f2 hmap hf
    cases s2 with
    | nil => exact hf [] [] rfl
    | cons c2 t2 => simp at hmap
  | cons c s ih =>
    intro s2 f f2 hmap hf
    cases s2 with
    | nil => simp at hmap
    | cons c2 t2 =>
      simp only [List.map_cons, List.cons.injEq] at hmap
      obtain ⟨hc, hs⟩ := hmap
      simp only [starGrun]
      rw [CClass_hit_lcN k hc]
      by_cases hk : k.hit c2
      · rw [if_pos hk, if_pos hk]
        exact optRel_orElse (ih t2 f f2 hs hf)
          (hf (c :: s) (c2 :: t2) (by simp [hc, hs]))
      · rw [if_neg hk, if_neg hk]
        exact hf (c :: s) (c2 :: t2) (by simp [hc, hs])

theorem starLrun_lcN (k : CClass) :
    ∀ (s s2 : List Char) (f f2 : List Char → Option (List Char)),
      s.map lcN = s2.map lcN →
      (∀ u u2, u.map lcN = u2.map lcN → optRel (f u) (f2 u2)) →
      optRel (starLrun k s f) (starLrun k s2 f2) := by
  intro s
  induction s with
  | nil =>
    intro s2 f f2 hmap hf
    cases s2 with
    | nil => exact hf [] [] rfl
    | cons c2 t2 => simp at hmap
  | cons c s ih =>
    intro s2 f f2 hmap hf
    cases s2 with
    | nil => simp at hmap
    | cons c2 t2 =>
      simp only [List.map_cons, List.cons.injEq] at hmap
      obtain ⟨hc, hs⟩ := hmap
      simp only [starLrun]
      refine optRel_orElse (hf (c :: s) (c2 :: t2) (by simp [hc, hs])) ?_
      rw [CClass_hit_lcN k hc]
      by_cases hk : k.hit c2
      · rw [if_pos hk, if_pos hk]
        exact ih t2 f f2 hs hf
      · rw [if_neg hk, if_neg hk]
        exact trivial

theorem mrun_lcN : ∀ (r : RE) (s s2 : List Char)
    (f f2 : List Char → Option (List Char)),
    s.map lcN = s2.map lcN →
    (∀ u u2, u.map lcN = u2.map lcN → optRel (f u) (f2 u2)) →
    optRel (mrun r s f) (mrun r s2 f2) := by
  intro r
  induction r with
  | eps =>
    intro s s2 f f2 hmap hf
    exact hf s s2 hmap
  | cls k =>
    intro s s2 f f2 hmap hf
    cases s with
    | nil =>
      cases s2 with
      | nil => exact trivial
      | cons c2 t2 => simp at hmap
    | cons c t =>
      cases s2 with
      | nil => simp at hmap
      | cons c2 t2 =>
        simp only [List.map_cons, List.cons.injEq] at hmap
        obtain ⟨hc, hs⟩ := hmap
        simp only [mrun]
        rw [CClass_hit_lcN k hc]
        by_cases hk : k.hit c2
        · rw [if_pos hk, if_pos hk]
          exact hf t t2 hs
        · rw [if_neg hk, if_neg hk]
          exact trivial
  | cat a b iha ihb =>
    intro s s2 f f2 hmap hf
    simp only [mrun]
    exact iha s s2 _ _ hmap (fun u u2 hu => ihb u u2 f f2 hu hf)
  | alt a b iha ihb =>
    intro s s2 f f2 hmap hf
    simp only [mrun]
    exact optRel_orElse (iha s s2 f f2 hmap hf) (ihb s s2 f f2 hmap hf)
  | optG a iha =>
    intro s s2 f f2 hmap hf
    simp only [mrun]
    exact optRel_orElse (iha s s2 f f2 hmap hf) (hf s s2 hmap)
  | starG k =>
    intro s s2 f f2 hmap hf
    exact starGrun_lcN k s s2 f f2 hmap hf
  | starL k =>
    intro s s2 f f2 hmap hf
    exact starLrun_lcN k s s2 f f2 hmap hf
  | plusG k =>
    intro s s2 f f2 hmap hf
    cases s with
    | nil =>
      cases s2 with
      | nil => exact trivial
      | cons c2 t2 => simp at hmap
    | cons c t =>
      cases s2 with
      | nil => simp at hmap
      | cons c2 t2 =>
        simp only [List.map_cons, List.cons.injEq] at hmap
        obtain ⟨hc, hs⟩ := hmap
        simp only [mrun]
        rw [CClass_hit_lcN k hc]
        by_cases hk : k.hit c2
        · rw [if_pos hk, if_pos hk]
          exact starGrun_lcN k t t2 f f2 hs hf
        · rw [if_neg hk, if_neg hk]
          exact trivial
  | plusL k =>
    intro s s2 f f2 hmap hf
    cases s with
    | nil =>
      cases s2 with
      | nil => exact trivial
      | cons c2 t2 => simp at hmap
    | cons c t =>
      cases s2 with
      | nil => simp at hmap
      | cons c2 t2 =>
        simp only [List.map_cons, List.cons.injEq] at hmap
        obtain ⟨hc, hs⟩ := hmap
        simp only [mrun]
        rw [CClass_hit_lcN k hc]
        by_cases hk : k.hit c2
        · rw [if_pos hk, if_pos hk]
          exact starLrun_lcN k t t2 f f2 hs hf
        · rw [if_neg hk, if_neg hk]
          exact trivial

theorem matchLen_lcN {r : RE} {s s2 : List Char}
    (h : s.map lcN = s2.map lcN) : matchLen r s = matchLen r s2 := by
  have hrel := mrun_lcN r s s2 some some h (fun u u2 hu => hu)
  unfold matchLen
  rcases h1 : mrun r s some with _ | u <;>
    rcases h2 : mrun r s2 some with _ | u2 <;> rw [h1, h2] at hrel
  · rfl
  · exact hrel.elim
  · exact hrel.elim
  · have hlen : s.length = s2.length := by
      have := congrArg List.length h
      simpa using this
    have hulen : u.length = u2.length := by
      have := congrArg List.length hrel
      simpa using this
    simp [hlen, hulen]

theorem findAllFuel_lcN {r : RE} : ∀ (fuel : Nat) (s s2 : List Char) (i : Nat),
    s.map lcN = s2.map lcN →
    findAllFuel r fuel s i = findAllFuel r fuel s2 i := by
  intro fuel
  induction fuel with
  | zero => intro s s2 i _; simp [findAllFuel]
  | succ fuel ih =>
    intro s s2 i hmap
    have hm : matchLen r s = matchLen r s2 := matchLen_lcN hmap
    rcases hml : matchLen r s2 with _ | L
    · rw [hml] at hm
      cases s with
      | nil =>
        cases s2 with
        | nil => rfl
        | cons c2 t2 => simp at hmap
      | cons c t =>
        cases s2 with
        | nil => simp at hmap
        | cons c2 t2 =>
          simp only [List.map_cons, List.cons.injEq] at hmap
          rw [findAllFuel_none_cons hm, findAllFuel_none_cons hml]
          exact ih t t2 (i + 1) hmap.2
    · rw [hml] at hm
      by_cases hL : L = 0
      · subst hL
        cases s with
        | nil =>
          cases s2 with
          | nil => rfl
          | cons c2 t2 => simp at hmap
        | cons c t =>
          cases s2 with
          | nil => simp at hmap
          | cons c2 t2 =>
            simp only [List.map_cons, List.cons.injEq] at hmap
            rw [findAllFuel_zero_cons hm, findAllFuel_zero_cons hml]
            rw [ih t t2 (i + 1) hmap.2]
      · rw [findAllFuel_pos hm hL, findAllFuel_pos hml hL]
        have hdrop : (s.drop L).map lcN = (s2.drop L).map lcN := by
          rw [List.map_drop, List.map_drop, hmap]
        rw [ih (s.drop L) (s2.drop L) (i + L) hdrop]

theorem findAll_lcN {r : RE} {s s2 : List Char}
    (h : s.map lcN = s2.map lcN) : findAll r s = findAll r s2 := by
  have hlen : s.length = s2.length := by
    have := congrArg List.length h
    simpa using this
  unfold findAll
  rw [hlen, findAllFuel_lcN (s2.length + 1) s s2 0 h]

theorem validate_lcN (settings : String → Option Nat) {t t2 : List Char}
    (h : t.map lcN = t2.map lcN) :
    CSPValidator.validate_contents settings t
      = CSPValidator.validate_contents settings t2 := by
  rw [validate_eq_flatMap, validate_eq_flatMap]
  have hfun : (fun r : CSPRule => ruleErrors r t) = fun r => ruleErrors r t2 :=
    funext fun r => by unfold ruleErrors; rw [findAll_lcN h]
  rw [hfun]

/-! ### Small facts about individual rules -/

theorem rule4_mem : rule4 ∈ CSPValidator.rules := by
  unfold CSPValidator.rules
  exact List.mem_cons_of_mem _ (List.mem_cons_of_mem _
    (List.mem_cons_of_mem _ (List.mem_cons_self _ _)))

theorem rule4_active (settings : String → Option Nat) :
    ruleActive settings rule4 = true := by
  simp [ruleActive, rule4]

theorem rules_message_nonempty :
    ∀ x ∈ CSPValidator.rules, x.message ≠ "" := by decide

theorem rules_findAll_nil :
    ∀ x ∈ CSPValidator.rules, findAll x.rule [] = [] := by decide

/-! ### Claims -/

/-- C1: the four flag-gated rules (1, 2, 7, 8) produce findings exactly
when `csp_chromeapps` equals 1 in the supplied flag state; with the flag
absent or disabled the result consists of the ungated rules' findings
only, which are unaffected by the flag.  Concretely, on
`<script src="http://x">` the enabled flag state yields the
"External resources are not allowed" finding at span (0, 22) and the
disabled flag state yields no finding with that message. -/
theorem c1_flag_gated_external_rules :
    (∀ (settings : String → Option Nat) (t : List Char),
        settings "csp_chromeapps" ≠ some 1 →
        CSPValidator.validate_contents settings t
          = [rule3, rule4, rule5, rule6].flatMap (fun r => ruleErrors r t)) ∧
    (∀ (settings : String → Option Nat) (t : List Char),
        settings "csp_chromeapps" = some 1 →
        CSPValidator.validate_contents settings t
          = CSPValidator.rules.flatMap (fun r => ruleErrors r t)) ∧
    (CSPError.mk (0, 22) "External resources are not allowed"
        ∈ CSPValidator.validate_contents flagsOn "<script src=\"http://x\">".toList) ∧
    (∀ e ∈ CSPValidator.validate_contents flagsOff "<script src=\"http://x\">".toList,
        e.message ≠ "External resources are not allowed") := by
  refine ⟨?_, ?_, by decide, by decide⟩
  · intro settings t h
    rw [validate_eq_flatMap, filter_rules_off h]
  · intro settings t h
    rw [validate_eq_flatMap, filter_rules_on h]

theorem c1_flag_gated_external_rules_witness :
    (flagsOff "csp_chromeapps" ≠ some 1) ∧
    CSPValidator.validate_contents flagsOff "eval".toList
      = [rule3, rule4, rule5, rule6].flatMap
          (fun r => ruleErrors r "eval".toList) :=
  ⟨by decide, c1_flag_gated_external_rules.1 flagsOff "eval".toList (by decide)⟩

/-- C2: the result is the concatenation, in rule declaration order, of
the findings of every active rule; within one rule the matches are
strictly ordered by start offset (and non-overlapping), and every match
at an isolated position is collected, so no rule suppresses another. -/
theorem c2_ordering_and_completeness :
    (∀ (settings : String → Option Nat) (t : List Char),
        CSPValidator.validate_contents settings t
          = (CSPValidator.rules.filter (ruleActive settings)).flatMap
              (fun r => ruleErrors r t)) ∧
    (∀ (r : RE) (t : List Char),
        (findAll r t).Pairwise (fun a b => a.1 < b.1 ∧ a.2 ≤ b.1)) ∧
    (∀ (r : RE) (t : List Char) (p L : Nat),
        matchLen r (t.drop p) = some L → 0 < L → isolatedAt r t p →
        (p, p + L) ∈ findAll r t) :=
  ⟨validate_eq_flatMap, findAll_sorted,
    fun _ _ _ _ hm hL hiso => findAll_complete hm hL hiso⟩

theorem c2_ordering_and_completeness_witness :
    matchLen rule4.rule ("xx new Function(a)".toList.drop 3) = some 12 ∧
    (3, 15) ∈ findAll rule4.rule "xx new Function(a)".toList :=
  ⟨by decide, c2_ordering_and_completeness.2.2 rule4.rule
    "xx new Function(a)".toList 3 12 (by decide) (by decide) (by decide)⟩

/-- C3: rule 3 matches a multi-line inline script body — the two-line
script yields exactly the one "Inline scripts are not allowed" finding
(span (0, 36)) — while a script tag with an empty body yields no rule-3
finding. -/
theorem c3_rule3_multiline :
    CSPValidator.validate_contents flagsOff
        "<script>\n  console.log(1);\n</script>".toList
      = [CSPError.mk (0, 36) "Inline scripts are not allowed"] ∧
    findAll rule3.rule "<script>\n  console.log(1);\n</script>".toList
      = [(0, 36)] ∧
    findAll rule3.rule "<script src=\"a.js\"></script>".toList = [] := by
  decide

/-- C4: for every flag state the empty text validates to an empty
finding list, and any text on which no active rule's pattern occurs
(the rules whose gating check passes under that flag state) validates
to an empty finding list. -/
theorem c4_empty_and_nonmatching :
    (∀ settings : String → Option Nat,
        CSPValidator.validate_contents settings [] = []) ∧
    (∀ (settings : String → Option Nat) (t : List Char),
        (∀ r ∈ CSPValidator.rules.filter (ruleActive settings),
            findAll r.rule t = []) →
        CSPValidator.validate_contents settings t = []) := by
  constructor
  · intro settings
    rw [validate_eq_flatMap]
    refine List.flatMap_eq_nil_iff.mpr fun r hr => ?_
    have h := rules_findAll_nil r (List.mem_of_mem_filter hr)
    simp [ruleErrors, h]
  · intro settings t hall
    rw [validate_eq_flatMap]
    refine List.flatMap_eq_nil_iff.mpr fun r hr => ?_
    have h := hall r hr
    simp [ruleErrors, h]

theorem c4_empty_and_nonmatching_witness :
    (∀ r ∈ CSPValidator.rules.filter (ruleActive flagsOff),
        findAll r.rule "<img src=\"http://x".toList = []) ∧
    findAll rule1.rule "<img src=\"http://x".toList = [(0, 18)] ∧
    CSPValidator.validate_contents flagsOff "<img src=\"http://x".toList = [] :=
  ⟨by decide, by decide,
    c4_empty_and_nonmatching.2 flagsOff "<img src=\"http://x".toList (by decide)⟩

/-- C5: matching is case-insensitive for every rule: validation results
depend only on the case-folded text, and the all-uppercase external
script tag triggers rule 1 exactly as its lowercase form does when the
flag is enabled. -/
theorem c5_case_insensitive :
    (∀ (settings : String → Option Nat) (t t2 : List Char),
        t.map lcN = t2.map lcN →
        CSPValidator.validate_contents settings t
          = CSPValidator.validate_contents settings t2) ∧
    CSPValidator.validate_contents flagsOn
        "<SCRIPT SRC=\"HTTP://x.com/a.js\">".toList
      = [CSPError.mk (0, 31) "External resources are not allowed"] ∧
    CSPValidator.validate_contents flagsOn
        "<SCRIPT SRC=\"HTTP://x.com/a.js\">".toList
      = CSPValidator.validate_contents flagsOn
          "<script src=\"http://x.com/a.js\">".toList := by
  refine ⟨fun settings t t2 h => validate_lcN settings h, by decide, by decide⟩

theorem c5_case_insensitive_witness :
    ("EVAL(x)".toList.map lcN = "eval(x)".toList.map lcN) ∧
    CSPValidator.validate_contents flagsOff "EVAL(x)".toList
      = CSPValidator.validate_contents flagsOff "eval(x)".toList :=
  ⟨by decide, c5_case_insensitive.1 flagsOff _ _ (by decide)⟩

/-- C6 (as stated, refuted): the text
`eval(x)new functionew Function("x")` contains `eval(x)` at offset 0 and
`new Function("x")` at the disjoint offset 18, yet validation produces
no "Code creation" finding at span (18, 30): the overlapping earlier
match `new function` at offset 7 consumes through offset 18 first. -/
theorem c6_counterexample :
    litMatch "eval(x)".toList
        ("eval(x)new functionew Function(\"x\")".toList.drop 0) = true ∧
    litMatch "new Function(\"x\")".toList
        ("eval(x)new functionew Function(\"x\")".toList.drop 18) = true ∧
    0 + 7 ≤ 18 ∧
    CSPError.mk (18, 30)
        "Code creation from strings, e.g. eval / new Function not allowed"
      ∉ CSPValidator.validate_contents flagsOff
          "eval(x)new functionew Function(\"x\")".toList := by
  decide

/-- C6 (amended): if additionally no earlier match of the
`eval|new Function` pattern overlaps either occurrence, then validation
reports a "Code creation" finding at the exact offsets of the `eval`
occurrence and of the `new Function` occurrence. -/
theorem c6_eval_new_function_amended (settings : String → Option Nat)
    (t : List Char) (p q : Nat)
    (hp : litMatch "eval(x)".toList (t.drop p) = true)
    (hq : litMatch "new Function(\"x\")".toList (t.drop q) = true)
    (hip : isolatedAt rule4.rule t p) (hiq : isolatedAt rule4.rule t q) :
    CSPError.mk (p, p + 4)
        "Code creation from strings, e.g. eval / new Function not allowed"
      ∈ CSPValidator.validate_contents settings t ∧
    CSPError.mk (q, q + 12)
        "Code creation from strings, e.g. eval / new Function not allowed"
      ∈ CSPValidator.validate_contents settings t := by
  have hsplit1 : "eval(x)".toList = "eval".toList ++ "(x)".toList := by decide
  have hsplit2 : "new Function(\"x\")".toList
      = "new Function".toList ++ "(\"x\")".toList := by decide
  rw [hsplit1] at hp
  rw [hsplit2] at hq
  have hpe : litMatch "eval".toList (t.drop p) = true :=
    litMatch_append_left _ _ _ hp
  have hqn : litMatch "new Function".toList (t.drop q) = true :=
    litMatch_append_left _ _ _ hq
  have hqe : litMatch "eval".toList (t.drop q) = false := by
    by_contra hcontra
    rw [Bool.not_eq_false] at hcontra
    have e0 := litMatch_abs hcontra 0 (by decide)
    have f0 := litMatch_abs hqn 0 (by decide)
    rw [e0] at f0
    exact absurd f0 (by decide)
  have hm4p : matchLen rule4.rule (t.drop p) = some 4 := by
    rw [matchLen_rule4, if_pos hpe]
  have hm4q : matchLen rule4.rule (t.drop q) = some 12 := by
    rw [matchLen_rule4, if_neg (by rw [hqe]; decide), if_pos hqn]
  constructor
  · refine mem_validate_of_rule rule4_mem (rule4_active settings) ?_
    exact List.mem_map.mpr
      ⟨(p, p + 4), findAll_complete hm4p (by omega) hip, rfl⟩
  · refine mem_validate_of_rule rule4_mem (rule4_active settings) ?_
    exact List.mem_map.mpr
      ⟨(q, q + 12), findAll_complete hm4q (by omega) hiq, rfl⟩

theorem c6_eval_new_function_amended_witness :
    (litMatch "eval(x)".toList ("eval(x) new Function(\"x\")".toList.drop 0)
        = true) ∧
    (litMatch "new Function(\"x\")".toList
        ("eval(x) new Function(\"x\")".toList.drop 8) = true) ∧
    isolatedAt rule4.rule "eval(x) new Function(\"x\")".toList 0 ∧
    isolatedAt rule4.rule "eval(x) new Function(\"x\")".toList 8 ∧
    (CSPError.mk (0, 4)
        "Code creation from strings, e.g. eval / new Function not allowed"
      ∈ CSPValidator.validate_contents flagsOff
          "eval(x) new Function(\"x\")".toList ∧
    CSPError.mk (8, 20)
        "Code creation from strings, e.g. eval / new Function not allowed"
      ∈ CSPValidator.validate_contents flagsOff
          "eval(x) new Function(\"x\")".toList) :=
  ⟨by decide, by decide, by decide, by decide,
    c6_eval_new_function_amended flagsOff "eval(x) new Function(\"x\")".toList
      0 8 (by decide) (by decide) (by decide) (by decide)⟩

/-- C7: an absent flag is treated exactly as a disabled flag (absent
implies false): validation with no stored settings equals validation
with the flag explicitly set to 0, with the gated rules simply skipped;
the embedding is a total function, so no exception is possible. -/
theorem c7_absent_flag_disabled :
    ∀ (settings : String → Option Nat) (t : List Char),
      settings "csp_chromeapps" = none →
      CSPValidator.validate_contents settings t
        = CSPValidator.validate_contents (fun _ => some 0) t := by
  intro settings t h
  rw [validate_eq_flatMap, validate_eq_flatMap,
    filter_rules_off (by rw [h]; simp), filter_rules_off (by simp)]

theorem c7_absent_flag_disabled_witness :
    (flagsOff "csp_chromeapps" = none) ∧
    CSPValidator.validate_contents flagsOff "eval(x)".toList
      = CSPValidator.validate_contents (fun _ => some 0) "eval(x)".toList :=
  ⟨by decide, c7_absent_flag_disabled flagsOff "eval(x)".toList (by decide)⟩

/-- C8: validation is a deterministic, pure function of the text and the
flag state: extensionally equal inputs give identical, identically
ordered results (and the embedding, being functional, mutates nothing). -/
theorem c8_deterministic_pure :
    ∀ (s1 s2 : String → Option Nat) (t1 t2 : List Char),
      t1 = t2 → (∀ n, s1 n = s2 n) →
      CSPValidator.validate_contents s1 t1
        = CSPValidator.validate_contents s2 t2 := by
  intro s1 s2 t1 t2 ht hs
  subst ht
  rw [funext hs]

theorem c8_deterministic_pure_witness :
    CSPValidator.validate_contents flagsOn "eval".toList
      = CSPValidator.validate_contents flagsOn "eval".toList :=
  c8_deterministic_pure flagsOn flagsOn "eval".toList "eval".toList rfl
    (fun _ => rfl)

/-- C9: every finding has a well-formed in-bounds span
(0 ≤ start ≤ end ≤ length of the text) and carries the message of one
of the eight declared rules, each of which is non-empty. -/
theorem c9_findings_wellformed :
    ∀ (settings : String → Option Nat) (t : List Char) (e : CSPError),
      e ∈ CSPValidator.validate_contents settings t →
      0 ≤ e.region.1 ∧ e.region.1 ≤ e.region.2 ∧ e.region.2 ≤ t.length ∧
      ∃ r ∈ CSPValidator.rules, e.message = r.message ∧ r.message ≠ "" := by
  intro settings t e he
  rw [validate_eq_flatMap] at he
  rcases List.mem_flatMap.mp he with ⟨r, hrf, hre⟩
  have hr := List.mem_of_mem_filter hrf
  rcases List.mem_map.mp hre with ⟨m, hm, rfl⟩
  have hb := findAll_bounds hm
  exact ⟨Nat.zero_le _, hb.1, hb.2, r, hr, rfl, rules_message_nonempty r hr⟩

theorem c9_findings_wellformed_witness :
    (CSPError.mk (0, 4)
        "Code creation from strings, e.g. eval / new Function not allowed"
      ∈ CSPValidator.validate_contents flagsOff "eval".toList) ∧
    (0 ≤ (0 : Nat) ∧ 0 ≤ 4 ∧ 4 ≤ "eval".toList.length ∧
      ∃ r ∈ CSPValidator.rules,
        "Code creation from strings, e.g. eval / new Function not allowed"
          = r.message ∧ r.message ≠ "") :=
  ⟨by decide, c9_findings_wellformed flagsOff "eval".toList
    (CSPError.mk (0, 4)
      "Code creation from strings, e.g. eval / new Function not allowed")
    (by decide)⟩

/-- C10: the eval rule matches the bare four-letter substring `eval`
with no word-boundary check: any text containing it, even inside a
longer identifier such as `retrieval`, yields a "Code creation" finding
at that substring's offsets, for every flag state. -/
theorem c10_bare_eval_reported (settings : String → Option Nat)
    (t : List Char) (p : Nat)
    (hp : litMatch "eval".toList (t.drop p) = true) :
    CSPError.mk (p, p + 4)
        "Code creation from strings, e.g. eval / new Function not allowed"
      ∈ CSPValidator.validate_contents settings t := by
  have hm : matchLen rule4.rule (t.drop p) = some 4 := by
    rw [matchLen_rule4, if_pos hp]
  refine mem_validate_of_rule rule4_mem (rule4_active settings) ?_
  exact List.mem_map.mpr
    ⟨(p, p + 4), findAll_complete hm (by omega) (rule4_isolated_eval hp), rfl⟩

theorem c10_bare_eval_reported_witness :
    (litMatch "eval".toList ("retrieval".toList.drop 5) = true) ∧
    CSPError.mk (5, 9)
        "Code creation from strings, e.g. eval / new Function not allowed"
      ∈ CSPValidator.validate_contents flagsOff "retrieval".toList :=
  ⟨by decide, c10_bare_eval_reported flagsOff "retrieval".toList 5 (by decide)⟩
